import Mathlib

/- Verification of the matrix-migration repository: a shallow embedding of
   src/exporter/exporter.py and src/importer/importer.py, with theorems about
   the bundle reader, plan builder, reconciler and inventory collector. -/

/-- JSON values as the Python code handles them: dicts are association lists,
numbers are integers (the documents carried by a bundle only use integral
numbers). -/
inductive JVal where
  | null : JVal
  | bool (b : Bool) : JVal
  | str (s : String) : JVal
  | num (n : Int) : JVal
  | arr (xs : List JVal) : JVal
  | obj (kvs : List (String × JVal)) : JVal
deriving Repr

mutual

/-- Structural equality of JSON values (Python == on the parsed documents). -/
def jvalBeq : JVal → JVal → Bool
  | .null, .null => true
  | .bool a, .bool b => a == b
  | .str a, .str b => a == b
  | .num a, .num b => a == b
  | .arr xs, .arr ys => jarrBeq xs ys
  | .obj xs, .obj ys => jobjBeq xs ys
  | _, _ => false

/-- Equality of JSON arrays, elementwise. -/
def jarrBeq : List JVal → List JVal → Bool
  | [], [] => true
  | x :: xs, y :: ys => jvalBeq x y && jarrBeq xs ys
  | _, _ => false

/-- Equality of JSON objects, bindingwise. -/
def jobjBeq : List (String × JVal) → List (String × JVal) → Bool
  | [], [] => true
  | (k1, v1) :: xs, (k2, v2) :: ys => k1 == k2 && jvalBeq v1 v2 && jobjBeq xs ys
  | _, _ => false

end

instance : BEq JVal := ⟨jvalBeq⟩

/-- Python truthiness of a JSON value. -/
def truthy : JVal → Bool
  | .null => false
  | .bool b => b
  | .str s => s ≠ ""
  | .num n => n ≠ 0
  | .arr xs => !xs.isEmpty
  | .obj kvs => !kvs.isEmpty

/-- Python d.get(k) on a JSON value: none when the value is not an object or
the key is absent. -/
def jGet : JVal → String → Option JVal
  | .obj kvs, k => kvs.lookup k
  | _, _ => none

/-- Python d.get(k) with absence turned into None (null). -/
def jGetV (v : JVal) (k : String) : JVal := (jGet v k).getD .null

/-- Python d.get(k, default). -/
def jGetD (v : JVal) (k : String) (d : JVal) : JVal := (jGet v k).getD d

/-- Python `a or b` on JSON values. -/
def pyOr (a b : JVal) : JVal := if truthy a then a else b

/-- Occurrence of one character list inside another, at any position. -/
def subOcc (sub : List Char) : List Char → Bool
  | [] => sub.isEmpty
  | c :: cs => sub.isPrefixOf (c :: cs) || subOcc sub cs

/-- Python substring containment, `sub in s`. -/
def strIn (sub s : String) : Bool := subOcc sub.data s.data

/-- Python s.startswith(p). -/
def pyStarts (s p : String) : Bool := p.data.isPrefixOf s.data

/-- Python s.endswith(p). -/
def pyEnds (s p : String) : Bool := p.data.isSuffixOf s.data

/-- Python dict assignment d[k] = v: replace the value of an existing key in
place, else append the new binding. -/
def dictPut {α β : Type} [BEq α] : List (α × β) → α → β → List (α × β)
  | [], k, v => [(k, v)]
  | (k0, v0) :: rest, k, v =>
    if k0 == k then (k0, v) :: rest else (k0, v0) :: dictPut rest k v

/-- Python dict d.pop(k, None): drop the binding of k if present. -/
def dictDrop {α β : Type} [BEq α] : List (α × β) → α → List (α × β)
  | [], _ => []
  | (k0, v0) :: rest, k =>
    if k0 == k then rest else (k0, v0) :: dictDrop rest k

/-- Python s.split for the separator "/", over the character list. -/
def splitSlashGo (cur : List Char) : List Char → List String
  | [] => [String.mk cur.reverse]
  | c :: cs =>
    if c = '/' then String.mk cur.reverse :: splitSlashGo [] cs
    else splitSlashGo (c :: cur) cs

/-- Python p.split sep for sep = "/". -/
def splitSlash (s : String) : List String := splitSlashGo [] s.data

/-- posixpath.normpath's component scan: skip empty and "." components, pop a
stacked component on "..", keep ".." when nothing can be popped and the path
is relative.  The stack is kept reversed. -/
def npScan (isAbs : Bool) (stack : List String) : List String → List String
  | [] => stack.reverse
  | c :: cs =>
    if c = "" || c = "." then npScan isAbs stack cs
    else if c ≠ ".." then npScan isAbs (c :: stack) cs
    else
      match stack with
      | [] => if isAbs then npScan isAbs [] cs else npScan isAbs [".."] cs
      | t :: rest =>
        if t = ".." then npScan isAbs (".." :: t :: rest) cs
        else npScan isAbs rest cs

/-- Join path components with "/". -/
def joinSlash : List String → String
  | [] => ""
  | [x] => x
  | x :: y :: rest => x ++ "/" ++ joinSlash (y :: rest)

/-- os.path.normpath for POSIX paths, as the importer applies it to archive
member names. -/
def pyNormpath (p : String) : String :=
  if p = "" then "."
  else
    let slashes : Nat :=
      if pyStarts p "//" && !pyStarts p "///" then 2
      else if pyStarts p "/" then 1 else 0
    let comps := npScan (slashes ≠ 0) [] (splitSlash p)
    let lead := if slashes = 2 then "//" else if slashes = 1 then "/" else ""
    let out := lead ++ joinSlash comps
    if out = "" then "." else out

/-- The check of _safe_extract (importer.py lines 174 to 177): a member is
refused when its normalized path starts with '/' (os.path.isabs performs the
same test on POSIX) or starts with "..". -/
def rejectName (name : String) : Bool :=
  let n := pyNormpath name
  pyStarts n "/" || pyStarts n ".."

/-- _safe_extract: the members of the archive are checked and extracted one at
a time, in order; the result is the list of names extracted to disk and, when
a member was refused, the name carried by the raised ValueError (extraction
stops there). -/
def safe_extract : List String → List String × Option String
  | [] => ([], none)
  | m :: ms =>
    if rejectName m then ([], some m)
    else
      let r := safe_extract ms
      (m :: r.1, r.2)

/-- The trigger named by claim C1: the member's normalized path is absolute,
or starts with a parent-directory traversal segment (the normalized path is
".." or begins with "../"). -/
def traversalTrigger (name : String) : Bool :=
  let n := pyNormpath name
  pyStarts n "/" || n == ".." || pyStarts n "../"

example : pyNormpath "../evil" = "../evil" := by decide
example : pyNormpath "a/../b" = "b" := by decide
example : pyNormpath "/x" = "/x" := by decide
example : safe_extract ["ok.txt", "../evil"] = (["ok.txt"], some "../evil") := by decide

/-- A name triggering the claim's condition is refused by the code's check:
an absolute normalized path starts with '/', and a normalized path that is
".." or begins "../" starts with "..". -/
theorem rejectName_of_traversalTrigger {m : String}
    (h : traversalTrigger m = true) : rejectName m = true := by
  unfold traversalTrigger at h
  unfold rejectName
  rcases Bool.or_eq_true_iff.mp h with h1 | h2
  · rcases Bool.or_eq_true_iff.mp h1 with ha | hb
    · exact Bool.or_eq_true_iff.mpr (Or.inl ha)
    · refine Bool.or_eq_true_iff.mpr (Or.inr ?_)
      have he : pyNormpath m = ".." := by
        have := (beq_iff_eq (a := pyNormpath m) (b := "..")).mp hb
        exact this
      rw [he]; decide
  · refine Bool.or_eq_true_iff.mpr (Or.inr ?_)
    unfold pyStarts at h2 ⊢
    have hpre : ("../".data : List Char) <+: (pyNormpath m).data :=
      List.isPrefixOf_iff_prefix.mp h2
    have hdd : ("..".data : List Char) <+: ("../".data : List Char) := by decide
    exact List.isPrefixOf_iff_prefix.mpr (hdd.trans hpre)

/-- Claim C1, counterexample: in the archive with members "ok.txt" then
"../evil", the traversal member makes the load fail, but only after "ok.txt"
has already been extracted to disk — the failure does not come before any
file is written. -/
theorem C1_counterexample :
    traversalTrigger "../evil" = true ∧
    (safe_extract ["ok.txt", "../evil"]).2 = some "../evil" ∧
    (safe_extract ["ok.txt", "../evil"]).1 ≠ [] := by
  refine ⟨by decide, by decide, by decide⟩

/-- Claim C1 (amended): if any archive member's normalized path is absolute
or starts with a parent-directory traversal segment, the whole load fails
with an integrity error (the ValueError of _safe_extract), no member that
the check refuses is ever extracted, and every file written before the
failure is one the check accepted (written inside the target directory);
members preceding the first offending one may however already have been
extracted when the error is raised. -/
theorem C1_traversal_rejected (members : List String)
    (h : ∃ m ∈ members, traversalTrigger m = true) :
    (safe_extract members).2.isSome = true ∧
    ∀ f ∈ (safe_extract members).1, rejectName f = false := by
  induction members with
  | nil => rcases h with ⟨m, hm, _⟩; cases hm
  | cons a rest ih =>
    by_cases hrej : rejectName a = true
    · refine ⟨?_, ?_⟩
      · show (if rejectName a then (([] : List String), some a)
            else ((a :: (safe_extract rest).1, (safe_extract rest).2))).2.isSome = true
        rw [hrej]; rfl
      · intro f hf
        simp only [safe_extract, hrej, if_true] at hf
        cases hf
    · have hra : rejectName a = false := Bool.eq_false_iff.mpr hrej
      have htr : traversalTrigger a = false := by
        cases htt : traversalTrigger a with
        | false => rfl
        | true => exact absurd (rejectName_of_traversalTrigger htt) hrej
      rcases h with ⟨m, hm, hmt⟩
      rcases List.mem_cons.mp hm with rfl | hmrest
      · rw [htr] at hmt; cases hmt
      · have ihr := ih ⟨m, hmrest, hmt⟩
        refine ⟨?_, ?_⟩
        · simp only [safe_extract, hra, Bool.false_eq_true, if_false]
          exact ihr.1
        · intro f hf
          simp only [safe_extract, hra, Bool.false_eq_true, if_false,
            List.mem_cons] at hf
          rcases hf with rfl | hfr
          · exact hra
          · exact ihr.2 f hfr

/-- Witness for the amended claim C1 at a concrete archive. -/
theorem C1_traversal_rejected_witness :
    (safe_extract ["ok.txt", "../evil"]).2.isSome = true ∧
    ∀ f ∈ (safe_extract ["ok.txt", "../evil"]).1, rejectName f = false :=
  C1_traversal_rejected ["ok.txt", "../evil"]
    ⟨"../evil", by decide, by decide⟩

/-- The first path component of a member name after normalization: the
top-level entry its extraction creates under the temp directory. -/
def firstComp (s : String) : String := (splitSlash (pyNormpath s)).headD ""

/-- Keep the first occurrence of each name: the distinct top-level entries in
creation order (the model fixes the order the OS directory listing leaves
unspecified). -/
def dedupFirst (seen : List String) : List String → List String
  | [] => []
  | x :: xs =>
    if seen.contains x then dedupFirst seen xs
    else x :: dedupFirst (x :: seen) xs

/-- The top-level entries of the extraction directory after extracting the
given members. -/
def top_levels (members : List String) : List String :=
  dedupFirst [] (members.map firstComp)

/-- Lines 209 to 211 of importer.py: root is entries[0] if the listing is
nonempty, else the temp directory itself; none stands for the extraction
root directory. -/
def bundle_root (entries : List String) : Option String := entries.head?

/-- _extract_bundle_to_temp on an archive: safe extraction, then choice of
the effective bundle root among the top-level entries of the temp
directory. -/
def extract_bundle (members : List String) : Except String (Option String) :=
  match safe_extract members with
  | (_, some bad) => .error bad
  | (extracted, none) => .ok (bundle_root (top_levels extracted))

/-- Claim C7, counterexample: an accepted archive with the two top-level
entries "bdir" and "cdir" does not fall back to the extraction root (none);
the code takes the first listed entry "bdir" as the effective root. -/
theorem C7_counterexample :
    top_levels ["bdir/x", "cdir/y"] = ["bdir", "cdir"] ∧
    extract_bundle ["bdir/x", "cdir/y"] = .ok (some "bdir") ∧
    (some "bdir" : Option String) ≠ none := by
  refine ⟨by decide, by rfl, by decide⟩

/-- Claim C7 (amended): for every archive the Bundle Reader accepts, the
effective root is the first top-level entry of the extracted tree whenever at
least one entry exists — so with exactly one top-level entry that entry is
the root — and the extraction root directory itself is used only when there
is no entry at all; with several entries the code still takes the first
listed entry, not the extraction root. -/
theorem C7_bundle_root (members : List String)
    (h : (safe_extract members).2 = none) :
    extract_bundle members =
      .ok ((top_levels (safe_extract members).1).head?) ∧
    (∀ e, top_levels (safe_extract members).1 = [e] →
      extract_bundle members = .ok (some e)) ∧
    (top_levels (safe_extract members).1 = [] →
      extract_bundle members = .ok none) := by
  have hmain : extract_bundle members =
      .ok ((top_levels (safe_extract members).1).head?) := by
    unfold extract_bundle bundle_root
    rcases hse : safe_extract members with ⟨ext, err⟩
    rw [hse] at h
    simp only at h
    subst h
    rfl
  refine ⟨hmain, ?_, ?_⟩
  · intro e he
    rw [hmain, he]
    rfl
  · intro he
    rw [hmain, he]
    rfl

/-- Witness for the amended claim C7: a wrapped archive with the single
top-level folder "export_bundle" gets that folder as its root. -/
theorem C7_bundle_root_witness :
    extract_bundle ["export_bundle/users.json", "export_bundle/rooms.json"] =
      .ok ((top_levels (safe_extract
        ["export_bundle/users.json", "export_bundle/rooms.json"]).1).head?) ∧
    (∀ e, top_levels (safe_extract
        ["export_bundle/users.json", "export_bundle/rooms.json"]).1 = [e] →
      extract_bundle ["export_bundle/users.json", "export_bundle/rooms.json"] =
        .ok (some e)) ∧
    (top_levels (safe_extract
        ["export_bundle/users.json", "export_bundle/rooms.json"]).1 = [] →
      extract_bundle ["export_bundle/users.json", "export_bundle/rooms.json"] =
        .ok none) :=
  C7_bundle_root ["export_bundle/users.json", "export_bundle/rooms.json"]
    (by decide)

/-- The Reconciliation Plan (importer.py, ImportPlan). -/
structure ImportPlan where
  join_rooms : List JVal
  create_rooms : List JVal
  create_aliases : List (String × JVal)
deriving Repr

/-- The room classification loop of build_plan (importer.py lines 262 to
270): records without a truthy room_id are skipped; a truthy federatable
value (default true when the key is absent) makes a join candidate; a falsy
one makes a local-create candidate only when the switch is on. -/
def plan_rooms (dcr : Bool) : List JVal → List JVal × List JVal
  | [] => ([], [])
  | r :: rs =>
    let rest := plan_rooms dcr rs
    let rid := jGetV r "room_id"
    if !truthy rid then rest
    else if truthy (jGetD r "federatable" (.bool true)) then
      (rid :: rest.1, rest.2)
    else if dcr then (rest.1, rid :: rest.2)
    else rest

/-- The alias loop of build_plan (importer.py lines 273 to 276): keep the
aliases suffixed by ":" ++ server_name when the switch is on. -/
def plan_aliases (dca : Bool) (server_name : String)
    (aliases : List (String × JVal)) : List (String × JVal) :=
  if dca then aliases.filter (fun kv => pyEnds kv.1 (":" ++ server_name))
  else []

/-- build_plan: a pure function of the bundle's rooms and aliases and of the
target parameters. -/
def build_plan (rooms : List JVal) (aliases : List (String × JVal))
    (server_name : String) (dcr dca : Bool) : ImportPlan :=
  let rr := plan_rooms dcr rooms
  ⟨rr.1, rr.2, plan_aliases dca server_name aliases⟩

/-- What the join branch of the loop keeps of one record. -/
def joinSel (r : JVal) : Option JVal :=
  let rid := jGetV r "room_id"
  if truthy rid && truthy (jGetD r "federatable" (.bool true)) then some rid
  else none

/-- What the local-create branch of the loop keeps of one record. -/
def createSel (dcr : Bool) (r : JVal) : Option JVal :=
  let rid := jGetV r "room_id"
  if truthy rid && !truthy (jGetD r "federatable" (.bool true)) && dcr then
    some rid
  else none

/-- The loop of build_plan keeps exactly the selected records, in order. -/
theorem plan_rooms_eq (dcr : Bool) (rooms : List JVal) :
    plan_rooms dcr rooms =
      (rooms.filterMap joinSel, rooms.filterMap (createSel dcr)) := by
  induction rooms with
  | nil => rfl
  | cons r rs ih =>
    simp only [plan_rooms, ih, List.filterMap_cons, joinSel, createSel]
    by_cases h1 : truthy (jGetV r "room_id") <;>
      by_cases h2 : truthy (jGetD r "federatable" (.bool true)) <;>
      cases dcr <;>
      simp [h1, h2]

/-- A room record as the data model types it: its room_id is a nonempty
string and its federatable field, when present, is a boolean flag. -/
def WellTypedRoom (r : JVal) : Prop :=
  (∃ s : String, jGetV r "room_id" = .str s ∧ s ≠ "") ∧
  (jGet r "federatable" = none ∨
    ∃ b : Bool, jGet r "federatable" = some (.bool b))

/-- The claim's join condition: federatable true or absent. -/
def FedJoin (r : JVal) : Prop :=
  jGet r "federatable" = none ∨ jGet r "federatable" = some (.bool true)

/-- The claim's local-create condition: federatable explicitly false. -/
def FedLocal (r : JVal) : Prop :=
  jGet r "federatable" = some (.bool false)

/-- For a well-typed record the code's truthiness test on the federatable
field with default true decides exactly the claim's join condition. -/
theorem truthy_fed_iff {r : JVal} (hw : WellTypedRoom r) :
    (truthy (jGetD r "federatable" (.bool true)) = true ↔ FedJoin r) ∧
    (truthy (jGetD r "federatable" (.bool true)) = false ↔ FedLocal r) := by
  rcases hw.2 with hnone | ⟨b, hb⟩
  · constructor
    · simp [jGetD, hnone, truthy, FedJoin]
    · simp [jGetD, hnone, truthy, FedLocal]
  · constructor
    · rw [jGetD, hb]
      cases b <;> simp [truthy, FedJoin, hb]
    · rw [jGetD, hb]
      cases b <;> simp [truthy, FedLocal, hb]

/-- A well-typed record's room_id is truthy. -/
theorem truthy_rid {r : JVal} (hw : WellTypedRoom r) :
    truthy (jGetV r "room_id") = true := by
  rcases hw.1 with ⟨s, hs, hne⟩
  rw [hs]
  simpa [truthy] using hne

/-- Claim C2: for every bundle whose room records are well typed with
pairwise distinct room ids, build_plan puts a room's id in the join list
exactly when its federatable flag is true or absent, puts it in the
local-create list exactly when federatable is explicitly false and the
local-room-creation switch is enabled, and a room that is neither appears in
neither list. -/
theorem C2_plan_classification (rooms : List JVal)
    (aliases : List (String × JVal)) (server_name : String) (dcr dca : Bool)
    (hwt : ∀ r ∈ rooms, WellTypedRoom r)
    (hnd : (rooms.map (fun r => jGetV r "room_id")).Nodup)
    (r : JVal) (hr : r ∈ rooms) :
    (jGetV r "room_id" ∈
        (build_plan rooms aliases server_name dcr dca).join_rooms ↔
      FedJoin r) ∧
    (jGetV r "room_id" ∈
        (build_plan rooms aliases server_name dcr dca).create_rooms ↔
      (FedLocal r ∧ dcr = true)) ∧
    ((¬FedJoin r ∧ ¬(FedLocal r ∧ dcr = true)) →
      jGetV r "room_id" ∉
          (build_plan rooms aliases server_name dcr dca).join_rooms ∧
        jGetV r "room_id" ∉
          (build_plan rooms aliases server_name dcr dca).create_rooms) := by
  have hinj := List.inj_on_of_nodup_map hnd
  have hjoin : (build_plan rooms aliases server_name dcr dca).join_rooms =
      rooms.filterMap joinSel := by
    simp [build_plan, plan_rooms_eq]
  have hcreate : (build_plan rooms aliases server_name dcr dca).create_rooms =
      rooms.filterMap (createSel dcr) := by
    simp [build_plan, plan_rooms_eq]
  have h1 : jGetV r "room_id" ∈
      (build_plan rooms aliases server_name dcr dca).join_rooms ↔ FedJoin r := by
    rw [hjoin, List.mem_filterMap]
    constructor
    · rintro ⟨a, ha, hsel⟩
      unfold joinSel at hsel
      by_cases hc : truthy (jGetV a "room_id") &&
          truthy (jGetD a "federatable" (.bool true))
      · rw [if_pos hc] at hsel
        have hid : jGetV a "room_id" = jGetV r "room_id" :=
          Option.some.inj hsel
        have : a = r := hinj ha hr hid
        subst this
        have := (Bool.and_eq_true _ _).mp hc
        exact ((truthy_fed_iff (hwt a ha)).1).mp this.2
      · rw [if_neg hc] at hsel
        cases hsel
    · intro hfj
      refine ⟨r, hr, ?_⟩
      unfold joinSel
      rw [if_pos]
      exact Bool.and_eq_true _ _ |>.mpr
        ⟨truthy_rid (hwt r hr), ((truthy_fed_iff (hwt r hr)).1).mpr hfj⟩
  have h2 : jGetV r "room_id" ∈
      (build_plan rooms aliases server_name dcr dca).create_rooms ↔
      (FedLocal r ∧ dcr = true) := by
    rw [hcreate, List.mem_filterMap]
    constructor
    · rintro ⟨a, ha, hsel⟩
      unfold createSel at hsel
      by_cases hc : truthy (jGetV a "room_id") &&
          !truthy (jGetD a "federatable" (.bool true)) && dcr
      · rw [if_pos hc] at hsel
        have hid : jGetV a "room_id" = jGetV r "room_id" :=
          Option.some.inj hsel
        have : a = r := hinj ha hr hid
        subst this
        have hc' := (Bool.and_eq_true _ _).mp hc
        have hc'' := (Bool.and_eq_true _ _).mp hc'.1
        refine ⟨((truthy_fed_iff (hwt a ha)).2).mp ?_, hc'.2⟩
        simpa using hc''.2
      · rw [if_neg hc] at hsel
        cases hsel
    · rintro ⟨hfl, hdcr⟩
      refine ⟨r, hr, ?_⟩
      unfold createSel
      rw [if_pos]
      refine Bool.and_eq_true _ _ |>.mpr ⟨?_, hdcr⟩
      refine Bool.and_eq_true _ _ |>.mpr ⟨truthy_rid (hwt r hr), ?_⟩
      have := ((truthy_fed_iff (hwt r hr)).2).mpr hfl
      simp [this]
  refine ⟨h1, h2, ?_⟩
  rintro ⟨hnj, hnc⟩
  exact ⟨fun hmem => hnj (h1.mp hmem), fun hmem => hnc (h2.mp hmem)⟩

/-- Witness for claim C2 at a concrete bundle: the explicitly
non-federatable room "!b:x" lands in the local-create list and not in the
join list. -/
theorem C2_plan_classification_witness :
    JVal.str "!b:x" ∈
      (build_plan
        [JVal.obj [("room_id", JVal.str "!a:x")],
         JVal.obj [("room_id", JVal.str "!b:x"), ("federatable", JVal.bool false)]]
        [] "x" true true).create_rooms ∧
    JVal.str "!b:x" ∉
      (build_plan
        [JVal.obj [("room_id", JVal.str "!a:x")],
         JVal.obj [("room_id", JVal.str "!b:x"), ("federatable", JVal.bool false)]]
        [] "x" true true).join_rooms := by
  have h := C2_plan_classification
    [JVal.obj [("room_id", JVal.str "!a:x")],
     JVal.obj [("room_id", JVal.str "!b:x"), ("federatable", JVal.bool false)]]
    [] "x" true true
    (by
      intro r hr
      rcases List.mem_cons.mp hr with rfl | hr
      · exact ⟨⟨"!a:x", rfl, by decide⟩, Or.inl rfl⟩
      rcases List.mem_cons.mp hr with rfl | hr
      · exact ⟨⟨"!b:x", rfl, by decide⟩, Or.inr ⟨false, rfl⟩⟩
      · cases hr)
    (by
      show List.Nodup [JVal.str "!a:x", JVal.str "!b:x"]
      simp)
    (JVal.obj [("room_id", JVal.str "!b:x"), ("federatable", JVal.bool false)])
    (by simp)
  have hb : jGetV
      (JVal.obj [("room_id", JVal.str "!b:x"), ("federatable", JVal.bool false)])
      "room_id" = JVal.str "!b:x" := rfl
  rw [hb] at h
  refine ⟨h.2.1.mpr ⟨rfl, rfl⟩, fun hm => ?_⟩
  have hfj := h.1.mp hm
  have hfed : jGet
      (JVal.obj [("room_id", JVal.str "!b:x"), ("federatable", JVal.bool false)])
      "federatable" = some (JVal.bool false) := rfl
  rcases hfj with hc | hc
  · rw [hfed] at hc
    exact Option.noConfusion hc
  · rw [hfed] at hc
    have := JVal.bool.inj (Option.some.inj hc)
    exact Bool.noConfusion this

/-- The bounded retry loop of perform_import (five join-by-id attempts with
backoff between them; the sleep itself is timing and not modeled): run the
call at each attempt index in turn, stop at the first success, record the
last attempt's error on exhaustion.  Returns the recorded error (none on
success) and the number of calls issued. -/
def retryCalls (call : Nat → Option String) : List Nat → Option String × Nat
  | [] => (none, 0)
  | [k] => (call k, 1)
  | k :: k' :: rest =>
    match call k with
    | none => (none, 1)
    | some _ =>
      let r := retryCalls call (k' :: rest)
      (r.1, r.2 + 1)

/-- The fallback loop of the join phase (importer.py lines 318 to 336): try
each candidate alias once; the first success marks the room joined and
clears the recorded failure; each failure overwrites the recorded error. -/
def fallbackJoin (call : String → Option String) :
    List String → Option String → Bool × Option String × List String
  | [], cur => (false, cur, [])
  | a :: rest, cur =>
    match call a with
    | none => (true, none, [a])
    | some e =>
      let r := fallbackJoin call rest (some e)
      (r.1, r.2.1, a :: r.2.2)

/-- Candidate aliases for the fallback: the truthy canonical-alias values of
the room's state snapshot, then every bundle alias whose value is this room
id (only strings can be passed on to the join call). -/
def candidateAliases (rid : String) (room_state : List (String × List JVal))
    (aliases : List (String × JVal)) : List String :=
  ((room_state.lookup rid).getD []).filterMap (fun ev =>
    if jGetV ev "type" == JVal.str "m.room.canonical_alias" then
      match jGetV (pyOr (jGetV ev "content") (.obj [])) "alias" with
      | .str a => if a ≠ "" then some a else none
      | _ => none
    else none)
  ++ aliases.filterMap (fun kv =>
    if kv.2 == JVal.str rid then some kv.1 else none)

/-- One room of the join phase of perform_import (lines 298 to 336): recorded
as joined at once when already joined or in dry-run; else up to five joins by
id, then the alias fallback.  Returns (joined, recorded failure, identifiers
passed to join calls). -/
def importJoinRoom (jf : String → Nat → Option String)
    (room_state : List (String × List JVal)) (aliases : List (String × JVal))
    (already : List String) (dry : Bool) (rid : String) :
    Bool × Option String × List String :=
  if rid ∈ already then (true, none, [])
  else if dry then (true, none, [])
  else
    let idTry := retryCalls (jf rid) [0, 1, 2, 3, 4]
    let idCalls := List.replicate idTry.2 rid
    match idTry.1 with
    | none => (true, none, idCalls)
    | some e =>
      let fb := fallbackJoin (fun a => jf a 0)
        (candidateAliases rid room_state aliases) (some e)
      (fb.1, fb.2.1, idCalls ++ fb.2.2)

/-- The join phase over the whole join list: joined room ids, failure map,
and every identifier passed to a join call. -/
def importJoins (jf : String → Nat → Option String)
    (room_state : List (String × List JVal)) (aliases : List (String × JVal))
    (already : List String) (dry : Bool) :
    List String → List String × List (String × String) × List String
  | [] => ([], [], [])
  | rid :: rest =>
    let one := importJoinRoom jf room_state aliases already dry rid
    let r := importJoins jf room_state aliases already dry rest
    ((if one.1 then rid :: r.1 else r.1),
     (match one.2.1 with
      | some e => (rid, e) :: r.2.1
      | none => r.2.1),
     one.2.2 ++ r.2.2)

/-- Claim C4: a room id of the plan's join list that is already in the
joined-rooms set taken at the start of the run is recorded as joined, and its
processing issues no join call at all. -/
theorem C4_already_joined (jf : String → Nat → Option String)
    (room_state : List (String × List JVal)) (aliases : List (String × JVal))
    (already : List String) (dry : Bool) (jlist : List String) (rid : String)
    (hmem : rid ∈ jlist) (hj : rid ∈ already) :
    rid ∈ (importJoins jf room_state aliases already dry jlist).1 ∧
    importJoinRoom jf room_state aliases already dry rid = (true, none, []) := by
  have hone : importJoinRoom jf room_state aliases already dry rid =
      (true, none, []) := by
    unfold importJoinRoom
    rw [if_pos hj]
  refine ⟨?_, hone⟩
  induction jlist with
  | nil => cases hmem
  | cons a rest ih =>
    rcases List.mem_cons.mp hmem with rfl | hr
    · show rid ∈ (let one := importJoinRoom jf room_state aliases already dry rid
        let r := importJoins jf room_state aliases already dry rest
        ((if one.1 then rid :: r.1 else r.1), _, _)).1
      rw [hone]
      exact List.mem_cons_self _ _
    · show rid ∈ (let one := importJoinRoom jf room_state aliases already dry a
        let r := importJoins jf room_state aliases already dry rest
        ((if one.1 then a :: r.1 else r.1), _, _)).1
      by_cases h1 : (importJoinRoom jf room_state aliases already dry a).1 = true
      · simp only [h1, if_true]
        exact List.mem_cons_of_mem _ (ih hr)
      · simp only [Bool.not_eq_true] at h1
        simp only [h1, Bool.false_eq_true, if_false]
        exact ih hr

/-- Witness for claim C4: with a target that refuses every join, the already
joined room "!a:x" is still recorded as joined, with no join call issued. -/
theorem C4_already_joined_witness :
    "!a:x" ∈ (importJoins (fun _ _ => some "network down") [] [] ["!a:x"]
      false ["!a:x"]).1 ∧
    importJoinRoom (fun _ _ => some "network down") [] [] ["!a:x"]
      false "!a:x" = (true, none, []) :=
  C4_already_joined (fun _ _ => some "network down") [] [] ["!a:x"] false
    ["!a:x"] "!a:x" (by decide) (by decide)

/-- Result of one alias-creation item. -/
inductive AliasRes where
  | created : AliasRes
  | failed (msg : String) : AliasRes
deriving Repr, DecidableEq

/-- The conflict test of the alias loop (importer.py line 351): the error
text carries M_ROOM_IN_USE (the server's alias-already-in-use error code) or
the words "already exists". -/
def conflictMsg (msg : String) : Bool :=
  strIn "M_ROOM_IN_USE" msg || strIn "already exists" msg

/-- The last attempt of the alias PUT loop: a success or a conflict error is
recorded as created, any other error is the recorded failure. -/
def aliasLast (res : Option String) : AliasRes :=
  match res with
  | none => .created
  | some msg => if conflictMsg msg then .created else .failed msg

/-- A non-final attempt of the alias PUT loop: a success or a conflict error
is recorded as created, any other error backs off and falls through to the
remaining attempts. -/
def aliasStep (res : Option String) (next : AliasRes) : AliasRes :=
  match res with
  | none => .created
  | some msg => if conflictMsg msg then .created else next

/-- The alias PUT retry loop (importer.py lines 343 to 357) over the list of
attempt indices. -/
def aliasAttempts (pf : Nat → Option String) : List Nat → AliasRes
  | [] => .created
  | [k] => aliasLast (pf k)
  | k :: k' :: rest => aliasStep (pf k) (aliasAttempts pf (k' :: rest))

theorem aliasLast_none : aliasLast none = .created := rfl

theorem aliasLast_some (e : String) :
    aliasLast (some e) = if conflictMsg e then .created else .failed e := rfl

theorem aliasStep_none (n : AliasRes) : aliasStep none n = .created := rfl

theorem aliasStep_some (e : String) (n : AliasRes) :
    aliasStep (some e) n = if conflictMsg e then .created else n := rfl

/-- How one item's loop outcome is recorded in the result accumulator. -/
def aliasRecord (a : String) (res : AliasRes)
    (r : List String × List (String × String)) :
    List String × List (String × String) :=
  match res with
  | .created => (a :: r.1, r.2)
  | .failed m => (r.1, (a, m) :: r.2)

theorem aliasRecord_created (a : String)
    (r : List String × List (String × String)) :
    aliasRecord a .created r = (a :: r.1, r.2) := rfl

theorem aliasRecord_failed (a m : String)
    (r : List String × List (String × String)) :
    aliasRecord a (.failed m) r = (r.1, (a, m) :: r.2) := rfl

/-- The alias phase of perform_import over the plan's alias map (the map has
one binding per alias, so an association list is faithful); in dry-run every
alias is recorded created without any call. -/
def importAliases (pf : String → JVal → Nat → Option String) (dry : Bool) :
    List (String × JVal) → List String × List (String × String)
  | [] => ([], [])
  | (a, rid) :: rest =>
    let r := importAliases pf dry rest
    if dry then (a :: r.1, r.2)
    else aliasRecord a (aliasAttempts (pf a rid) [0, 1, 2, 3, 4]) r

/-- The retry loop fails exactly when every attempt raises a non-conflict
error, and then the recorded message is the last attempt's. -/
theorem aliasAttempts_failed_iff (pf : Nat → Option String) :
    ∀ (ks : List Nat) (hne : ks ≠ []) (m : String),
      aliasAttempts pf ks = .failed m ↔
        ((∀ k ∈ ks, ∃ e, pf k = some e ∧ conflictMsg e = false) ∧
          pf (ks.getLast hne) = some m) := by
  intro ks
  induction ks with
  | nil => intro hne; cases hne rfl
  | cons k rest ih =>
    intro hne m
    cases rest with
    | nil =>
      simp only [aliasAttempts, List.getLast_singleton, List.mem_singleton]
      cases hpk : pf k with
      | none =>
        rw [aliasLast_none]
        constructor
        · intro h; cases h
        · rintro ⟨h1, h2⟩; cases h2
      | some e =>
        rw [aliasLast_some]
        by_cases hc : conflictMsg e = true
        · rw [if_pos hc]
          constructor
          · intro h; cases h
          · rintro ⟨h1, h2⟩
            rcases h1 k rfl with ⟨e', he', hce'⟩
            rw [hpk] at he'
            have : e = e' := Option.some.inj he'
            subst this
            rw [hc] at hce'
            cases hce'
        · rw [if_neg hc]
          have hcf : conflictMsg e = false := Bool.eq_false_iff.mpr hc
          constructor
          · intro h
            have hm : e = m := by
              cases h; rfl
            subst hm
            exact ⟨fun k' hk' => by
              subst hk'
              exact ⟨e, hpk, hcf⟩, rfl⟩
          · rintro ⟨h1, h2⟩
            have : e = m := Option.some.inj h2
            subst this
            rfl
    | cons k2 rest2 =>
      have hne2 : k2 :: rest2 ≠ [] := List.cons_ne_nil _ _
      have hlast : (k :: k2 :: rest2).getLast hne = (k2 :: rest2).getLast hne2 :=
        List.getLast_cons hne2
      simp only [aliasAttempts]
      cases hpk : pf k with
      | none =>
        rw [aliasStep_none]
        constructor
        · intro h; cases h
        · rintro ⟨h1, h2⟩
          rcases h1 k (List.mem_cons_self _ _) with ⟨e', he', _⟩
          rw [hpk] at he'; cases he'
      | some e =>
        rw [aliasStep_some]
        by_cases hc : conflictMsg e = true
        · rw [if_pos hc]
          constructor
          · intro h; cases h
          · rintro ⟨h1, h2⟩
            rcases h1 k (List.mem_cons_self _ _) with ⟨e', he', hce'⟩
            rw [hpk] at he'
            have : e = e' := Option.some.inj he'
            subst this
            rw [hc] at hce'
            cases hce'
        · rw [if_neg hc]
          have hcf : conflictMsg e = false := Bool.eq_false_iff.mpr hc
          rw [ih hne2 m, hlast]
          constructor
          · rintro ⟨h1, h2⟩
            refine ⟨?_, h2⟩
            intro k' hk'
            rcases List.mem_cons.mp hk' with rfl | hk'
            · exact ⟨e, hpk, hcf⟩
            · exact h1 k' hk'
          · rintro ⟨h1, h2⟩
            exact ⟨fun k' hk' => h1 k' (List.mem_cons_of_mem _ hk'), h2⟩

/-- Aliases recorded created or failed all come from the processed items. -/
theorem importAliases_keys (pf : String → JVal → Nat → Option String) :
    ∀ items : List (String × JVal),
      (∀ x ∈ (importAliases pf false items).1, x ∈ items.map Prod.fst) ∧
      (∀ x m, (x, m) ∈ (importAliases pf false items).2 →
        x ∈ items.map Prod.fst) := by
  intro items
  induction items with
  | nil =>
    refine ⟨fun x hx => ?_, fun x m hx => ?_⟩
    · cases hx
    · cases hx
  | cons it rest ih =>
    rcases it with ⟨a, rid⟩
    have hred : importAliases pf false ((a, rid) :: rest) =
        aliasRecord a (aliasAttempts (pf a rid) [0, 1, 2, 3, 4])
          (importAliases pf false rest) := rfl
    constructor
    · intro x hx
      rw [hred] at hx
      cases hres : aliasAttempts (pf a rid) [0, 1, 2, 3, 4] with
      | created =>
        rw [hres, aliasRecord_created] at hx
        rcases List.mem_cons.mp hx with rfl | hx
        · exact List.mem_cons_self _ _
        · exact List.mem_cons_of_mem _ (ih.1 x hx)
      | failed m0 =>
        rw [hres, aliasRecord_failed] at hx
        exact List.mem_cons_of_mem _ (ih.1 x hx)
    · intro x m hx
      rw [hred] at hx
      cases hres : aliasAttempts (pf a rid) [0, 1, 2, 3, 4] with
      | created =>
        rw [hres, aliasRecord_created] at hx
        exact List.mem_cons_of_mem _ (ih.2 x m hx)
      | failed m0 =>
        rw [hres, aliasRecord_failed] at hx
        rcases List.mem_cons.mp hx with heq | hx
        · have : x = a := congrArg Prod.fst heq
          rw [this]
          exact List.mem_cons_self _ _
        · exact List.mem_cons_of_mem _ (ih.2 x m hx)

/-- With pairwise distinct alias keys, an item's fate in the alias phase is
exactly its own retry loop's outcome. -/
theorem importAliases_mem (pf : String → JVal → Nat → Option String)
    (items : List (String × JVal)) (hnd : (items.map Prod.fst).Nodup)
    (a : String) (rid : JVal) (hmem : (a, rid) ∈ items) :
    (a ∈ (importAliases pf false items).1 ↔
      aliasAttempts (pf a rid) [0, 1, 2, 3, 4] = .created) ∧
    (∀ m, (a, m) ∈ (importAliases pf false items).2 ↔
      aliasAttempts (pf a rid) [0, 1, 2, 3, 4] = .failed m) := by
  induction items with
  | nil => cases hmem
  | cons it rest ih =>
    rcases it with ⟨a0, rid0⟩
    have hnd' : (rest.map Prod.fst).Nodup := (List.nodup_cons.mp hnd).2
    have ha0 : a0 ∉ rest.map Prod.fst := (List.nodup_cons.mp hnd).1
    have hred : importAliases pf false ((a0, rid0) :: rest) =
        aliasRecord a0 (aliasAttempts (pf a0 rid0) [0, 1, 2, 3, 4])
          (importAliases pf false rest) := rfl
    rcases List.mem_cons.mp hmem with heq | hrest
    · have ha : a0 = a := congrArg Prod.fst heq.symm
      have hrid : rid0 = rid := congrArg Prod.snd heq.symm
      subst ha; subst hrid
      have hnotc : a0 ∉ (importAliases pf false rest).1 := fun hx =>
        ha0 ((importAliases_keys pf rest).1 a0 hx)
      have hnotf : ∀ m, (a0, m) ∉ (importAliases pf false rest).2 := fun m hx =>
        ha0 ((importAliases_keys pf rest).2 a0 m hx)
      constructor
      · rw [hred]
        cases hres : aliasAttempts (pf a0 rid0) [0, 1, 2, 3, 4] with
        | created =>
          rw [aliasRecord_created]
          exact ⟨fun _ => rfl, fun _ => List.mem_cons_self _ _⟩
        | failed m0 =>
          rw [aliasRecord_failed]
          refine ⟨fun hx => absurd hx hnotc, fun h => ?_⟩
          cases h
      · intro m
        rw [hred]
        cases hres : aliasAttempts (pf a0 rid0) [0, 1, 2, 3, 4] with
        | created =>
          rw [aliasRecord_created]
          refine ⟨fun hx => absurd hx (hnotf m), fun h => ?_⟩
          cases h
        | failed m0 =>
          rw [aliasRecord_failed]
          constructor
          · intro hx
            rcases List.mem_cons.mp hx with heq2 | hx
            · have : m0 = m := congrArg Prod.snd heq2.symm
              rw [this]
            · exact absurd hx (hnotf m)
          · intro h
            have : m0 = m := by cases h; rfl
            subst this
            exact List.mem_cons_self _ _
    · have hne : a ≠ a0 := by
        intro h
        subst h
        exact ha0 (List.mem_map.mpr ⟨(a, rid), hrest, rfl⟩)
      have ihh := ih hnd' hrest
      constructor
      · rw [hred]
        cases hres : aliasAttempts (pf a0 rid0) [0, 1, 2, 3, 4] with
        | created =>
          rw [aliasRecord_created]
          rw [List.mem_cons]
          constructor
          · rintro (h | h)
            · exact absurd h hne
            · exact ihh.1.mp h
          · intro h
            exact Or.inr (ihh.1.mpr h)
        | failed m0 =>
          rw [aliasRecord_failed]
          exact ihh.1
      · intro m
        rw [hred]
        cases hres : aliasAttempts (pf a0 rid0) [0, 1, 2, 3, 4] with
        | created =>
          rw [aliasRecord_created]
          exact ihh.2 m
        | failed m0 =>
          rw [aliasRecord_failed]
          rw [List.mem_cons]
          constructor
          · rintro (h | h)
            · exact absurd (congrArg Prod.fst h) hne
            · exact (ihh.2 m).mp h
          · intro h
            exact Or.inr ((ihh.2 m).mpr h)

/-- The attempt indices of the five-attempt loop are the naturals up to 4. -/
theorem mem_attempts (k : Nat) : k ∈ [0, 1, 2, 3, 4] ↔ k ≤ 4 := by
  simp only [List.mem_cons, List.not_mem_nil, or_false]
  omega

/-- Claim C3: for an alias item of the plan, a PUT failure whose error text
indicates the alias is already in use (the M_ROOM_IN_USE error code) or
already exists is recorded as created, at whatever attempt it occurs, and
the alias then never appears in the failure map; the alias is recorded as
failed exactly when all five attempts raise non-conflict errors, recording
the final attempt's message. -/
theorem C3_alias_conflict (pf : String → JVal → Nat → Option String)
    (items : List (String × JVal)) (hnd : (items.map Prod.fst).Nodup)
    (a : String) (rid : JVal) (hmem : (a, rid) ∈ items) :
    (∀ k, k ≤ 4 →
      (∃ m, pf a rid k = some m ∧ conflictMsg m = true) →
      a ∈ (importAliases pf false items).1 ∧
        ∀ v, (a, v) ∉ (importAliases pf false items).2) ∧
    (∀ m, (a, m) ∈ (importAliases pf false items).2 ↔
      ((∀ k, k ≤ 4 → ∃ e, pf a rid k = some e ∧ conflictMsg e = false) ∧
        pf a rid 4 = some m)) := by
  have hmm := importAliases_mem pf items hnd a rid hmem
  constructor
  · rintro k hk ⟨m, hm, hcm⟩
    have hcre : aliasAttempts (pf a rid) [0, 1, 2, 3, 4] = .created := by
      cases hres : aliasAttempts (pf a rid) [0, 1, 2, 3, 4] with
      | created => rfl
      | failed m0 =>
        have hif := (aliasAttempts_failed_iff (pf a rid) [0, 1, 2, 3, 4]
          (by decide) m0).mp hres
        rcases hif.1 k ((mem_attempts k).mpr hk) with ⟨e, he, hce⟩
        rw [hm] at he
        have : m = e := Option.some.inj he
        subst this
        rw [hcm] at hce
        cases hce
    refine ⟨hmm.1.mpr hcre, fun v hv => ?_⟩
    have hfv := (hmm.2 v).mp hv
    rw [hcre] at hfv
    cases hfv
  · intro m
    rw [hmm.2 m, aliasAttempts_failed_iff (pf a rid) [0, 1, 2, 3, 4]
      (by decide) m]
    constructor
    · rintro ⟨h1, h2⟩
      exact ⟨fun k hk => h1 k ((mem_attempts k).mpr hk), h2⟩
    · rintro ⟨h1, h2⟩
      exact ⟨fun k hk => h1 k ((mem_attempts k).mp hk), h2⟩

/-- Witness for claim C3: a first-attempt M_ROOM_IN_USE failure records the
alias as created and keeps it out of the failure map. -/
theorem C3_alias_conflict_witness :
    "#town:x" ∈ (importAliases
      (fun _ _ k => if k = 0 then some "HTTP 409: M_ROOM_IN_USE" else none)
      false [("#town:x", JVal.str "!a:x")]).1 ∧
    ∀ v, ("#town:x", v) ∉ (importAliases
      (fun _ _ k => if k = 0 then some "HTTP 409: M_ROOM_IN_USE" else none)
      false [("#town:x", JVal.str "!a:x")]).2 :=
  (C3_alias_conflict
    (fun _ _ k => if k = 0 then some "HTTP 409: M_ROOM_IN_USE" else none)
    [("#town:x", JVal.str "!a:x")]
    (List.nodup_singleton _)
    "#town:x" (JVal.str "!a:x") (List.mem_singleton.mpr rfl)).1
    0 (by decide) ⟨"HTTP 409: M_ROOM_IN_USE", rfl, by decide⟩

/-- JSON equality against a string value is string identity. -/
theorem beq_str_iff (v : JVal) (s : String) :
    (v == JVal.str s) = true ↔ v = .str s := by
  cases v <;> simp [BEq.beq, jvalBeq]

/-- The name/topic/initial-state derivation loop of the local-room creation
phase (importer.py lines 372 to 380), one state event at a time: a name or
topic event overwrites the variable with its content value (None when the
content lacks the key), the four forwarded types are appended to the initial
state, everything else is ignored. -/
def deriveStep (acc : JVal × JVal × List JVal) (ev : JVal) :
    JVal × JVal × List JVal :=
  if jGetV ev "type" == JVal.str "m.room.name" then
    (jGetV (pyOr (jGetV ev "content") (.obj [])) "name", acc.2.1, acc.2.2)
  else if jGetV ev "type" == JVal.str "m.room.topic" then
    (acc.1, jGetV (pyOr (jGetV ev "content") (.obj [])) "topic", acc.2.2)
  else if jGetV ev "type" == JVal.str "m.room.power_levels" ||
      jGetV ev "type" == JVal.str "m.room.join_rules" ||
      jGetV ev "type" == JVal.str "m.room.history_visibility" ||
      jGetV ev "type" == JVal.str "m.room.encryption" then
    (acc.1, acc.2.1, acc.2.2 ++
      [JVal.obj [("type", jGetV ev "type"), ("state_key", JVal.str ""),
        ("content", pyOr (jGetV ev "content") (.obj []))]])
  else acc

/-- The derived creation parameters (name, topic, initial state) of a room
from its state snapshot: the fold of deriveStep, name and topic starting as
None. -/
def deriveCreate (st : List JVal) : JVal × JVal × List JVal :=
  st.foldl deriveStep (.null, .null, [])

/-- Modelled from the claim's words: the content value carried by the first
event of the given type in the snapshot (null when there is none). -/
def firstEventValue (st : List JVal) (ty field : String) : JVal :=
  match st.find? (fun ev => jGetV ev "type" == JVal.str ty) with
  | none => .null
  | some ev => jGetV (pyOr (jGetV ev "content") (.obj [])) field

/-- The content value carried by the last event of the given type in the
snapshot (null when there is none). -/
def lastEventValue (st : List JVal) (ty field : String) : JVal :=
  match (st.filter (fun ev => jGetV ev "type" == JVal.str ty)).getLast? with
  | none => .null
  | some ev => jGetV (pyOr (jGetV ev "content") (.obj [])) field

theorem deriveStep_name (acc : JVal × JVal × List JVal) (ev : JVal) :
    (deriveStep acc ev).1 =
      if jGetV ev "type" == JVal.str "m.room.name" then
        jGetV (pyOr (jGetV ev "content") (.obj [])) "name"
      else acc.1 := by
  unfold deriveStep
  split_ifs <;> rfl

theorem deriveStep_topic (acc : JVal × JVal × List JVal) (ev : JVal) :
    (deriveStep acc ev).2.1 =
      if jGetV ev "type" == JVal.str "m.room.topic" then
        jGetV (pyOr (jGetV ev "content") (.obj [])) "topic"
      else acc.2.1 := by
  unfold deriveStep
  by_cases h1 : (jGetV ev "type" == JVal.str "m.room.name") = true
  · have he : jGetV ev "type" = .str "m.room.name" := (beq_str_iff _ _).mp h1
    have h2 : (jGetV ev "type" == JVal.str "m.room.topic") = false := by
      rw [he]; rfl
    rw [if_pos h1, h2]
    rfl
  · rw [if_neg h1]
    split_ifs <;> rfl

/-- Appending one event changes the last matching value exactly when the new
event matches the type. -/
theorem lastEventValue_append (l : List JVal) (e : JVal) (ty field : String) :
    lastEventValue (l ++ [e]) ty field =
      if jGetV e "type" == JVal.str ty then
        jGetV (pyOr (jGetV e "content") (.obj [])) field
      else lastEventValue l ty field := by
  unfold lastEventValue
  rw [List.filter_append, List.filter_singleton]
  by_cases hb : (jGetV e "type" == JVal.str ty) = true
  · rw [if_pos hb]
    simp only [hb, cond_true]
    rw [List.getLast?_concat]
  · rw [if_neg hb]
    simp only [Bool.not_eq_true] at hb
    simp only [hb, cond_false]
    rw [List.append_nil]

/-- Claim C9, counterexample: in a snapshot with two m.room.name events
carrying names "A" then "B", the created room's name is derived from the
last one ("B"), not from the first ("A"). -/
theorem C9_counterexample :
    (deriveCreate
      [JVal.obj [("type", JVal.str "m.room.name"),
        ("content", JVal.obj [("name", JVal.str "A")])],
       JVal.obj [("type", JVal.str "m.room.name"),
        ("content", JVal.obj [("name", JVal.str "B")])]]).1 = JVal.str "B" ∧
    firstEventValue
      [JVal.obj [("type", JVal.str "m.room.name"),
        ("content", JVal.obj [("name", JVal.str "A")])],
       JVal.obj [("type", JVal.str "m.room.name"),
        ("content", JVal.obj [("name", JVal.str "B")])]]
      "m.room.name" "name" = JVal.str "A" ∧
    JVal.str "B" ≠ JVal.str "A" := by
  refine ⟨rfl, rfl, fun h => ?_⟩
  have h' : "B" = "A" := JVal.str.inj h
  exact absurd h' (by decide)

/-- Claim C9 (amended): the Reconciler derives the created room's name from
the last m.room.name event and its topic from the last m.room.topic event of
the room's state snapshot — each later matching event overwrites the value
taken from an earlier one — and the value stays None (so the field is
omitted from the creation request) when no such event occurs. -/
theorem C9_name_topic_last (st : List JVal) :
    (deriveCreate st).1 = lastEventValue st "m.room.name" "name" ∧
    (deriveCreate st).2.1 = lastEventValue st "m.room.topic" "topic" := by
  induction st using List.reverseRecOn with
  | nil => exact ⟨rfl, rfl⟩
  | append_singleton l e ih =>
    unfold deriveCreate at ih ⊢
    rw [List.foldl_append, List.foldl_cons, List.foldl_nil]
    constructor
    · rw [deriveStep_name, lastEventValue_append, ih.1]
    · rw [deriveStep_topic, lastEventValue_append, ih.2]

/-- Python int(x) as applied to a pagination token: integers stay, booleans
coerce, decimal strings parse (surrounding whitespace is not modeled);
anything else raises, here none. -/
def pyInt : JVal → Option Int
  | .num n => some n
  | .bool b => some (if b then 1 else 0)
  | .str s => s.toInt?
  | _ => none

/-- The users carried by one admin page (data.get with default empty list;
a non-list value would raise in Python and is modeled as empty). -/
def pageUsers (data : JVal) : List JVal :=
  match jGetD data "users" (.arr []) with
  | .arr us => us
  | _ => []

/-- The rooms carried by one admin page. -/
def pageRooms (data : JVal) : List JVal :=
  match jGetD data "rooms" (.arr []) with
  | .arr rs => rs
  | _ => []

/-- The guest filter of list_users: u.get("is_guest") falsy. -/
def nonGuest (u : JVal) : Bool := !truthy (jGetV u "is_guest")

/-- The stop test of list_users (exporter.py line 119): next_token absent or
null (Python None covers both) or equal to the current token. -/
def usersBreak (t : Option JVal) (from_tok : JVal) : Bool :=
  match t with
  | none => true
  | some JVal.null => true
  | some v => v == from_tok

/-- list_users (exporter.py lines 106 to 121), fueled: fetch the page at the
current token, keep its non-guest users, stop when the stop test holds, else
continue with the returned token.  none means the loop did not stop within
the given number of pages. -/
def list_users_go (page : JVal → JVal) :
    Nat → JVal → List JVal → Option (List JVal)
  | 0, _, _ => none
  | fuel + 1, from_tok, acc =>
    if usersBreak (jGet (page from_tok) "next_token") from_tok then
      some (acc ++ (pageUsers (page from_tok)).filter nonGuest)
    else
      list_users_go page fuel
        ((jGet (page from_tok) "next_token").getD .null)
        (acc ++ (pageUsers (page from_tok)).filter nonGuest)

/-- The user listing from the initial token 0. -/
def list_users (page : JVal → JVal) (fuel : Nat) : Option (List JVal) :=
  list_users_go page fuel (.num 0) []

/-- list_rooms (exporter.py lines 131 to 149), fueled: fetch, keep every
room of the page, take next_batch or next_token (Python or), stop on a falsy
token, coerce to int and stop when not coercible; unlike list_users there is
no comparison with the previous token. -/
def list_rooms_go (page : JVal → JVal) :
    Nat → JVal → List JVal → Option (List JVal)
  | 0, _, _ => none
  | fuel + 1, from_tok, acc =>
    if !truthy (pyOr (jGetV (page from_tok) "next_batch")
        (jGetV (page from_tok) "next_token")) then
      some (acc ++ pageRooms (page from_tok))
    else
      match pyInt (pyOr (jGetV (page from_tok) "next_batch")
          (jGetV (page from_tok) "next_token")) with
      | none => some (acc ++ pageRooms (page from_tok))
      | some n => list_rooms_go page fuel (.num n) (acc ++ pageRooms (page from_tok))

/-- The room listing from the initial token 0. -/
def list_rooms (page : JVal → JVal) (fuel : Nat) : Option (List JVal) :=
  list_rooms_go page fuel (.num 0) []

/-- Claim C8 (code bug): against a source whose every page returns the same
continuation token 5, the room listing never stops — it exhausts any amount
of fuel, because the unchanged-token cycle guard exists only in the user
listing — while the user listing on the analogous behaviour stops on its
second page. -/
theorem C8_same_token_loop :
    (∀ (fuel : Nat) (from_tok : JVal) (acc : List JVal),
      list_rooms_go
        (fun _ => JVal.obj [("rooms", JVal.arr []), ("next_batch", JVal.num 5)])
        fuel from_tok acc = none) ∧
    list_users
      (fun _ => JVal.obj [("users", JVal.arr []), ("next_token", JVal.num 5)])
      2 = some [] := by
  constructor
  · intro fuel
    induction fuel with
    | zero => intro from_tok acc; rfl
    | succ n ih =>
      intro from_tok acc
      show list_rooms_go
        (fun _ => JVal.obj [("rooms", JVal.arr []), ("next_batch", JVal.num 5)])
        n (JVal.num 5) (acc ++ []) = none
      exact ih (JVal.num 5) (acc ++ [])
  · rfl

/-- Invariant of the user-listing loop: starting from an accumulator of
non-guest records, every record of a finished listing is non-guest. -/
theorem list_users_go_nonguest (page : JVal → JVal) :
    ∀ (fuel : Nat) (from_tok : JVal) (acc us : List JVal),
      list_users_go page fuel from_tok acc = some us →
      (∀ u ∈ acc, truthy (jGetV u "is_guest") = false) →
      ∀ u ∈ us, truthy (jGetV u "is_guest") = false := by
  intro fuel
  induction fuel with
  | zero => intro from_tok acc us h; cases h
  | succ n ih =>
    intro from_tok acc us h hacc
    have hnext : ∀ u ∈ acc ++ (pageUsers (page from_tok)).filter nonGuest,
        truthy (jGetV u "is_guest") = false := by
      intro u hu
      rcases List.mem_append.mp hu with hu | hu
      · exact hacc u hu
      · have hn := (List.mem_filter.mp hu).2
        unfold nonGuest at hn
        simpa using hn
    unfold list_users_go at h
    by_cases hb : usersBreak (jGet (page from_tok) "next_token") from_tok = true
    · rw [if_pos hb] at h
      have : acc ++ (pageUsers (page from_tok)).filter nonGuest = us :=
        Option.some.inj h
      rw [← this]
      exact hnext
    · rw [if_neg hb] at h
      exact ih _ _ us h hnext

/-- Claim C10: the collected users document keeps only non-guest records —
every user record flagged is_guest is excluded by the user listing. -/
theorem C10_guests_excluded (page : JVal → JVal) (fuel : Nat)
    (us : List JVal) (h : list_users page fuel = some us) :
    ∀ u ∈ us, truthy (jGetV u "is_guest") = false := by
  exact list_users_go_nonguest page fuel (.num 0) [] us h
    (fun u hu => by cases hu)

/-- Witness for claim C10: on a page with one guest and one regular user,
the guest is dropped and the survivor is non-guest. -/
theorem C10_guests_excluded_witness :
    truthy (jGetV (JVal.obj [("name", JVal.str "@alice:x")]) "is_guest") =
      false :=
  C10_guests_excluded
    (fun _ => JVal.obj [("users", JVal.arr
      [JVal.obj [("name", JVal.str "@guest:x"), ("is_guest", JVal.bool true)],
       JVal.obj [("name", JVal.str "@alice:x")]])])
    1 [JVal.obj [("name", JVal.str "@alice:x")]] rfl
    (JVal.obj [("name", JVal.str "@alice:x")]) (List.mem_singleton.mpr rfl)

/-- The closed set of important state event types kept by collection
(exporter.py lines 281 to 296). -/
def importantTypes : List JVal :=
  [.str "m.room.create", .str "m.room.power_levels", .str "m.room.join_rules",
   .str "m.room.history_visibility", .str "m.room.guest_access",
   .str "m.room.canonical_alias", .str "m.room.name", .str "m.room.topic",
   .str "m.room.encryption", .str "m.room.server_acl", .str "m.room.avatar",
   .str "m.space.child", .str "m.space.parent"]

/-- Python a.endswith on a JSON value: only a string can carry the suffix
(a non-string value would raise in Python; no settled claim reaches that
case). -/
def jEndsWith (a : JVal) (sfx : String) : Bool :=
  match a with
  | .str s => pyEnds s sfx
  | _ => false

/-- Python `cfg.server_name and a.endswith(":" + s)`: false when the
configured name is absent or empty. -/
def snAndEnds (sn : Option String) (a : JVal) : Bool :=
  match sn with
  | none => false
  | some s => (s ≠ "") && jEndsWith a (":" ++ s)

/-- Python `cfg.server_name is None or a.endswith(":" + s)`. -/
def snNoneOrEnds (sn : Option String) (a : JVal) : Bool :=
  match sn with
  | none => true
  | some s => jEndsWith a (":" ++ s)

/-- The list iterated by `content.get("aliases", []) or []` of the
m.room.aliases branch (a null content raises in Python; modeled as empty,
unreached by the settled claims). -/
def aliasList (ev : JVal) : List JVal :=
  match pyOr (jGetD (jGetD ev "content" (.obj [])) "aliases" (.arr []))
      (.arr []) with
  | .arr xs => xs
  | _ => []

/-- The canonical alias value of a state event: the alias key of the
content, where the content defaults to an empty object when absent or
falsy. -/
def canonAlias (ev : JVal) : JVal :=
  jGetV (pyOr (jGetD ev "content" (.obj [])) (.obj [])) "alias"

/-- The m.room.aliases branch of the alias derivation (exporter.py lines 312
to 316): keep the entries suffixed by the configured domain. -/
def deriveAliasesB1 (sn : Option String) (rid : JVal)
    (acc : List (JVal × JVal)) (ev : JVal) : List (JVal × JVal) :=
  if jGetV ev "type" == JVal.str "m.room.aliases" then
    (aliasList ev).foldl
      (fun a2 a => if snAndEnds sn a then dictPut a2 a rid else a2) acc
  else acc

/-- The m.room.canonical_alias branch of the alias derivation (exporter.py
lines 317 to 320): keep a truthy canonical alias when no domain is
configured or the suffix matches. -/
def deriveAliasesB2 (sn : Option String) (rid : JVal)
    (acc : List (JVal × JVal)) (ev : JVal) : List (JVal × JVal) :=
  if jGetV ev "type" == JVal.str "m.room.canonical_alias" then
    if truthy (canonAlias ev) && snNoneOrEnds sn (canonAlias ev) then
      dictPut acc (canonAlias ev) rid
    else acc
  else acc

/-- The alias derivation of the collection loop for one state event: both
ifs of the source run in sequence. -/
def deriveAliasesEv (sn : Option String) (rid : JVal)
    (acc : List (JVal × JVal)) (ev : JVal) : List (JVal × JVal) :=
  deriveAliasesB2 sn rid (deriveAliasesB1 sn rid acc ev) ev

/-- The event list of a members response, `mem.get("chunk", [])`. -/
def chunkList (mem : JVal) : List JVal :=
  match jGetD mem "chunk" (.arr []) with
  | .arr xs => xs
  | _ => []

/-- The membership pairs of one room from the members response (exporter.py
lines 326 to 332). -/
def roomMembersOf (mem : JVal) : List (JVal × JVal) :=
  (chunkList mem).foldl
    (fun acc ev =>
      if jGetV ev "type" == JVal.str "m.room.member" then
        if truthy (jGetV ev "state_key") &&
            truthy (jGetV (pyOr (jGetV ev "content") (.obj [])) "membership") then
          dictPut acc (jGetV ev "state_key")
            (jGetV (pyOr (jGetV ev "content") (.obj [])) "membership")
        else acc
      else acc) []

/-- The three documents the collection loop accumulates. -/
structure CollectAcc where
  room_state : List (JVal × List JVal)
  memberships : List (JVal × List (JVal × JVal))
  aliases : List (JVal × JVal)
deriving Repr

/-- The per-room body of the collection loop of export_all (exporter.py
lines 298 to 335): records without a truthy room_id are skipped; the state
fetch's exception is replaced by a one-event error marker and the
important-type filter of the events is stored; aliases are derived from the
unfiltered events; the membership fetch's exception is replaced by an
explicit _error marker. -/
def collect_room (sn : Option String)
    (stateOf : JVal → Except String (List JVal))
    (membersOf : JVal → Except String JVal) (acc : CollectAcc) (rb : JVal) :
    CollectAcc :=
  let rid := jGetV rb "room_id"
  if !truthy rid then acc
  else
    let st := match stateOf rid with
      | .ok evs => evs
      | .error e => [JVal.obj [("error", JVal.str e)]]
    let filtered := st.filter (fun ev => importantTypes.contains (jGetV ev "type"))
    CollectAcc.mk
      (dictPut acc.room_state rid filtered)
      (dictPut acc.memberships rid
        (match membersOf rid with
         | .ok mem => roomMembersOf mem
         | .error e => [(JVal.str "_error", JVal.str e)]))
      (st.foldl (deriveAliasesEv sn rid) acc.aliases)

/-- The collection phase of export_all over all basic room records. -/
def collect_rooms (sn : Option String)
    (stateOf : JVal → Except String (List JVal))
    (membersOf : JVal → Except String JVal) (rooms_basic : List JVal) :
    CollectAcc :=
  rooms_basic.foldl (collect_room sn stateOf membersOf)
    (CollectAcc.mk [] [] [])

/-- A dict assignment adds no value other than the assigned one. -/
theorem dictPut_mem {α β : Type} [BEq α] (d : List (α × β)) (k : α) (v : β)
    (x : α × β) (hx : x ∈ dictPut d k v) : x ∈ d ∨ x.2 = v := by
  induction d with
  | nil =>
    have hx1 : x = (k, v) := List.mem_singleton.mp hx
    rw [hx1]
    exact Or.inr rfl
  | cons p rest ih =>
    rcases p with ⟨k0, v0⟩
    unfold dictPut at hx
    by_cases hk : (k0 == k) = true
    · rw [if_pos hk] at hx
      rcases List.mem_cons.mp hx with rfl | hx
      · exact Or.inr rfl
      · exact Or.inl (List.mem_cons_of_mem _ hx)
    · rw [if_neg hk] at hx
      rcases List.mem_cons.mp hx with rfl | hx
      · exact Or.inl (List.mem_cons_self _ _)
      · rcases ih hx with h | h
        · exact Or.inl (List.mem_cons_of_mem _ h)
        · exact Or.inr h

/-- The fold of domain-filtered alias assignments only adds bindings to the
current room id. -/
theorem foldl_aliasPut_mem (sn : Option String) (rid : JVal) :
    ∀ (l : List JVal) (acc : List (JVal × JVal)) (x : JVal × JVal),
      x ∈ l.foldl
        (fun a2 a => if snAndEnds sn a then dictPut a2 a rid else a2) acc →
      x ∈ acc ∨ x.2 = rid := by
  intro l
  induction l with
  | nil => intro acc x hx; exact Or.inl hx
  | cons a rest ih =>
    intro acc x hx
    rw [List.foldl_cons] at hx
    rcases ih _ x hx with h | h
    · by_cases hc : snAndEnds sn a = true
      · rw [if_pos hc] at h
        rcases dictPut_mem _ _ _ _ h with h2 | h2
        · exact Or.inl h2
        · exact Or.inr h2
      · rw [if_neg hc] at h
        exact Or.inl h
    · exact Or.inr h

/-- The m.room.aliases branch only adds bindings to the current room id. -/
theorem deriveAliasesB1_mem (sn : Option String) (rid : JVal) (ev : JVal)
    (acc : List (JVal × JVal)) (x : JVal × JVal)
    (hx : x ∈ deriveAliasesB1 sn rid acc ev) : x ∈ acc ∨ x.2 = rid := by
  unfold deriveAliasesB1 at hx
  by_cases hb : (jGetV ev "type" == JVal.str "m.room.aliases") = true
  · rw [if_pos hb] at hx
    exact foldl_aliasPut_mem sn rid _ acc x hx
  · rw [if_neg hb] at hx
    exact Or.inl hx

/-- The canonical-alias branch only adds bindings to the current room id. -/
theorem deriveAliasesB2_mem (sn : Option String) (rid : JVal) (ev : JVal)
    (acc : List (JVal × JVal)) (x : JVal × JVal)
    (hx : x ∈ deriveAliasesB2 sn rid acc ev) : x ∈ acc ∨ x.2 = rid := by
  unfold deriveAliasesB2 at hx
  by_cases hb : (jGetV ev "type" == JVal.str "m.room.canonical_alias") = true
  · rw [if_pos hb] at hx
    by_cases hc : (truthy (canonAlias ev) && snNoneOrEnds sn (canonAlias ev)) = true
    · rw [if_pos hc] at hx
      rcases dictPut_mem _ _ _ _ hx with h | h
      · exact Or.inl h
      · exact Or.inr h
    · rw [if_neg hc] at hx
      exact Or.inl hx
  · rw [if_neg hb] at hx
    exact Or.inl hx

/-- The whole alias derivation over a state snapshot only adds bindings to
the current room id. -/
theorem foldl_deriveAliases_mem (sn : Option String) (rid : JVal) :
    ∀ (st : List JVal) (acc : List (JVal × JVal)) (x : JVal × JVal),
      x ∈ st.foldl (deriveAliasesEv sn rid) acc → x ∈ acc ∨ x.2 = rid := by
  intro st
  induction st with
  | nil => intro acc x hx; exact Or.inl hx
  | cons ev rest ih =>
    intro acc x hx
    rw [List.foldl_cons] at hx
    rcases ih _ x hx with h | h
    · unfold deriveAliasesEv at h
      rcases deriveAliasesB2_mem sn rid ev _ x h with h2 | h2
      · rcases deriveAliasesB1_mem sn rid ev _ x h2 with h3 | h3
        · exact Or.inl h3
        · exact Or.inr h3
      · exact Or.inr h2
    · exact Or.inr h

/-- One round of the collection loop only adds aliases bound to the current
record's truthy room id. -/
theorem collect_room_aliases_mem (sn : Option String)
    (stateOf : JVal → Except String (List JVal))
    (membersOf : JVal → Except String JVal) (acc : CollectAcc) (rb : JVal)
    (x : JVal × JVal)
    (hx : x ∈ (collect_room sn stateOf membersOf acc rb).aliases) :
    x ∈ acc.aliases ∨
      (x.2 = jGetV rb "room_id" ∧ truthy (jGetV rb "room_id") = true) := by
  unfold collect_room at hx
  by_cases ht : truthy (jGetV rb "room_id") = true
  · rw [if_neg (by simp [ht])] at hx
    rcases foldl_deriveAliases_mem sn (jGetV rb "room_id") _ _ x hx with h | h
    · exact Or.inl h
    · exact Or.inr ⟨h, ht⟩
  · rw [if_pos (by simp [Bool.not_eq_true] at ht; simp [ht])] at hx
    exact Or.inl hx

/-- Over a record list, every collected alias binds to the truthy room id of
one of the records (or was in the starting accumulator). -/
theorem collect_fold_aliases (sn : Option String)
    (stateOf : JVal → Except String (List JVal))
    (membersOf : JVal → Except String JVal) :
    ∀ (l : List JVal) (acc : CollectAcc) (x : JVal × JVal),
      x ∈ (l.foldl (collect_room sn stateOf membersOf) acc).aliases →
      x ∈ acc.aliases ∨ ∃ rb ∈ l, jGetV rb "room_id" = x.2 ∧
        truthy (jGetV rb "room_id") = true := by
  intro l
  induction l with
  | nil => intro acc x hx; exact Or.inl hx
  | cons rb rest ih =>
    intro acc x hx
    rw [List.foldl_cons] at hx
    rcases ih _ x hx with h | h
    · rcases collect_room_aliases_mem sn stateOf membersOf acc rb x h with h2 | h2
      · exact Or.inl h2
      · exact Or.inr ⟨rb, List.mem_cons_self _ _, h2.1.symm, h2.2⟩
    · rcases h with ⟨rb2, hrb2, hid⟩
      exact Or.inr ⟨rb2, List.mem_cons_of_mem _ hrb2, hid⟩

/-- Claim C5: with no target-domain filter configured, every alias collected
into the AliasMap maps to a value that is the room_id of one of the
collected room records. -/
theorem C5_alias_targets (stateOf : JVal → Except String (List JVal))
    (membersOf : JVal → Except String JVal) (rooms_basic : List JVal)
    (a rid : JVal)
    (h : (a, rid) ∈ (collect_rooms none stateOf membersOf rooms_basic).aliases) :
    ∃ rb ∈ rooms_basic, jGetV rb "room_id" = rid := by
  rcases collect_fold_aliases none stateOf membersOf rooms_basic
    (CollectAcc.mk [] [] []) (a, rid) h with h2 | h2
  · cases h2
  · rcases h2 with ⟨rb, hrb, hid, _⟩
    exact ⟨rb, hrb, hid⟩

/-- Witness for claim C5: a canonical alias collected with no configured
domain points at the room id of the collected record. -/
theorem C5_alias_targets_witness :
    ∃ rb ∈ [JVal.obj [("room_id", JVal.str "!a:x")]],
      jGetV rb "room_id" = JVal.str "!a:x" :=
  C5_alias_targets
    (fun _ => Except.ok [JVal.obj [("type", JVal.str "m.room.canonical_alias"),
      ("content", JVal.obj [("alias", JVal.str "#town:x")])]])
    (fun _ => Except.ok (JVal.obj [("chunk", JVal.arr [])]))
    [JVal.obj [("room_id", JVal.str "!a:x")]]
    (JVal.str "#town:x") (JVal.str "!a:x")
    (List.mem_singleton.mpr rfl)

/-- Claim C6 (code bug): when one room's state fetch raises, collection of
the other rooms continues and a failed membership fetch does leave an
explicit _error marker, but the state error marker the code builds is
immediately removed by the important-type filter — the failing room's
room-state entry is the empty list, with no trace of the error. -/
theorem C6_state_marker_lost :
    collect_rooms none
      (fun rid => if rid == JVal.str "!bad:x" then Except.error "timeout"
        else Except.ok [JVal.obj [("type", JVal.str "m.room.name"),
          ("content", JVal.obj [("name", JVal.str "N")])]])
      (fun rid => if rid == JVal.str "!bad:x" then Except.error "conn reset"
        else Except.ok (JVal.obj [("chunk", JVal.arr [])]))
      [JVal.obj [("room_id", JVal.str "!bad:x")],
       JVal.obj [("room_id", JVal.str "!good:x")]] =
    CollectAcc.mk
      [(JVal.str "!bad:x", []),
       (JVal.str "!good:x", [JVal.obj [("type", JVal.str "m.room.name"),
         ("content", JVal.obj [("name", JVal.str "N")])]])]
      [(JVal.str "!bad:x", [(JVal.str "_error", JVal.str "conn reset")]),
       (JVal.str "!good:x", [])]
      [] := rfl
